import Mathlib

/-!
# Verification of the svgo-rs path-data optimizer and pipeline coordinator

Shallow embedding of `src/plugins/path.rs` (the tokenizer-renderer
`optimize_path_data` and the `PathOptimizerPlugin`) and of
`src/processor.rs` (`SVGProcessor::process_file` / `process_event`),
together with proofs and refutations of the specification's claims.

Modelling conventions:
* Rust `f64` parsing/formatting is modelled exactly over decimal numbers
  (`parseF64` / `fixedFormat`).  On the decimal literals appearing in the
  concrete theorems below all values are exactly representable in `f64`,
  so the exact model and IEEE-754 semantics coincide there.
* Rust `usize` arithmetic whose debug-build semantics is a panic on
  underflow is modelled with `Option`: `none` is the panic.
* `String::len` (UTF-8 byte length) is modelled by `String.utf8ByteSize`.
-/

namespace SvgoRs

/-- The SVG path command characters, exactly the match arms
`'M' | 'm' | … | 'Z' | 'z'` of `optimize_path_data`. -/
def isCommandChar (c : Char) : Bool :=
  c = 'M' || c = 'm' || c = 'L' || c = 'l' || c = 'H' || c = 'h' ||
  c = 'V' || c = 'v' || c = 'C' || c = 'c' || c = 'S' || c = 's' ||
  c = 'Q' || c = 'q' || c = 'T' || c = 't' || c = 'A' || c = 'a' ||
  c = 'Z' || c = 'z'

/-- The match arm `'0'..='9' | '.' | '-'` starting a numeric token. -/
def isNumStart (c : Char) : Bool :=
  c.isDigit || c = '.' || c = '-'

/-- The continuation condition of the number-collection loop:
`next.is_ascii_digit() || next == '.' || next == 'e' || next == 'E' || next == '-'`. -/
def isNumCont (c : Char) : Bool :=
  c.isDigit || c = '.' || c = 'e' || c = 'E' || c = '-'

/-- The separator match arm `' ' | ','`. -/
def isSepChar (c : Char) : Bool :=
  c = ' ' || c = ','

/-- Decimal value of a digit list, most significant digit first. -/
def digitsToNat (l : List Char) : ℕ :=
  l.foldl (fun acc c => 10 * acc + (c.toNat - 48)) 0

/-- Exponent digits (after `e`/`E` and an optional sign) of a float literal:
nonempty all-digit suffix, negated when the sign was `-`. -/
def parseExpDigits (neg : Bool) (ds : List Char) : Option ℤ :=
  if ds.isEmpty then none
  else if ds.all Char.isDigit then
    some (if neg then -(digitsToNat ds : ℤ) else (digitsToNat ds : ℤ))
  else none

/-- Exponent part of a Rust float literal: empty, or `e`/`E`, an optional
sign, and a nonempty digit run consuming the rest of the token. -/
def parseExpPart : List Char → Option ℤ
  | [] => some 0
  | c :: rest =>
    if c = 'e' || c = 'E' then
      match rest with
      | '-' :: ds => parseExpDigits true ds
      | '+' :: ds => parseExpDigits false ds
      | ds => parseExpDigits false ds
    else none

/-- The value of a parsed float literal, kept in exact decimal form:
`(-1)^neg * mant * 10^exp10`. -/
structure DecFloat where
  neg : Bool
  mant : ℕ
  exp10 : ℤ
deriving DecidableEq

/-- `str::parse::<f64>` on a collected numeric token.  The grammar is
Rust's: optional sign, then digits with an optional fractional part (at
least one digit among the two parts), then an optional exponent.  (The
`inf`/`nan` spellings of `f64::from_str` cannot occur in a collected
token, whose characters are digits, `.`, `e`, `E`, `-`.)  The value is
kept as an exact decimal rather than rounded to binary; on the decimal
literals in the concrete theorems below both agree. -/
def parseF64 (l : List Char) : Option DecFloat :=
  let signSplit : Bool × List Char :=
    match l with
    | '-' :: rest => (true, rest)
    | '+' :: rest => (false, rest)
    | _ => (false, l)
  let neg := signSplit.1
  let l1 := signSplit.2
  let intDs := l1.takeWhile Char.isDigit
  let l2 := l1.dropWhile Char.isDigit
  let fracSplit : List Char × List Char :=
    match l2 with
    | '.' :: rest => (rest.takeWhile Char.isDigit, rest.dropWhile Char.isDigit)
    | _ => ([], l2)
  let fracDs := fracSplit.1
  let l3 := fracSplit.2
  if intDs.isEmpty && fracDs.isEmpty then none
  else
    match parseExpPart l3 with
    | none => none
    | some e =>
      some ⟨neg, digitsToNat (intDs ++ fracDs), e - fracDs.length⟩

/-- Decimal digits of a natural number, most significant first, accumulator
style.  `fuel ≥` the number of digits suffices; callers pass `n` itself. -/
def natReprGo : ℕ → ℕ → List Char → List Char
  | 0, _, acc => acc
  | fuel + 1, n, acc =>
    if n = 0 then acc
    else natReprGo fuel (n / 10) (Char.ofNat (48 + n % 10) :: acc)

/-- Decimal representation of a natural number. -/
def natRepr (n : ℕ) : List Char :=
  if n = 0 then ['0'] else natReprGo n n []

/-- Round `m / d` (with `d > 0`) to the nearest natural number, ties to
even — the rounding of Rust's fixed-precision float formatting. -/
def roundDecimal (m d : ℕ) : ℕ :=
  let q := m / d
  let r := m % d
  if 2 * r < d then q
  else if d < 2 * r then q + 1
  else if q % 2 = 0 then q else q + 1

/-- `|value| * 10^p` rounded half-to-even to an integer: the digit string
of `format!("{:.p$}", num)` read as one number. -/
def scaledRound (p : ℕ) (v : DecFloat) : ℕ :=
  let k : ℤ := v.exp10 + p
  if 0 ≤ k then v.mant * 10 ^ k.toNat
  else roundDecimal v.mant (10 ^ (-k).toNat)

/-- The digit string of the fixed format, left-padded with `'0'` to at
least `p + 1` digits so that an integer part exists. -/
def paddedDigits (p : ℕ) (v : DecFloat) : List Char :=
  let ds := natRepr (scaledRound p v)
  if ds.length ≤ p then List.replicate (p + 1 - ds.length) '0' ++ ds else ds

/-- `format!("{:.p$}", num)`: sign, integer digits, and exactly `p`
fractional digits (no decimal point when `p = 0`). -/
def fixedFormat (p : ℕ) (v : DecFloat) : List Char :=
  let ds := paddedDigits p v
  let sign : List Char := if v.neg then ['-'] else []
  if p = 0 then sign ++ ds
  else sign ++ ds.take (ds.length - p) ++ '.' :: ds.drop (ds.length - p)

/-- `rounded.trim_end_matches('0').trim_end_matches('.')`: strip all
trailing `0` characters, then all trailing `.` characters. -/
def trimNumChars (l : List Char) : List Char :=
  (((l.reverse.dropWhile (fun c => c = '0')).dropWhile (fun c => c = '.'))).reverse

/-- Canonical rendering of a parsed number at precision `p`: fixed-point
format followed by the trailing-zero / trailing-dot trim. -/
def formatNumber (p : ℕ) (v : DecFloat) : List Char :=
  trimNumChars (fixedFormat p v)

/-- The emission of the separator arm of `optimize_path_data` (lines
68–77): one space when the previous token was a number and the peeked
next character is a digit or `-`, nothing otherwise. -/
def sepSpace (prev : Bool) (cs : List Char) : List Char :=
  if prev then
    match cs with
    | n :: _ => if n.isDigit || n = '-' then [' '] else []
    | [] => []
  else []

/-- The scan loop of `optimize_path_data` (src/plugins/path.rs lines
25–82), one constructor case per Rust match arm, with the
`prev_was_number` flag threaded explicitly.  The numeric-token collection
loop is expressed with `takeWhile`/`dropWhile`; `fuel` makes the recursion
structural (one unit per loop iteration, so `fuel ≥` the input length
never runs out). -/
def optimizeGo (p : ℕ) : ℕ → Bool → List Char → List Char
  | 0, _, _ => []
  | _ + 1, _, [] => []
  | fuel + 1, prev, c :: cs =>
    if isCommandChar c then
      c :: optimizeGo p fuel false cs
    else if isNumStart c then
      let run := c :: cs.takeWhile isNumCont
      let rest := cs.dropWhile isNumCont
      let sp : List Char := if prev then [' '] else []
      match parseF64 run with
      | some q => sp ++ formatNumber p q ++ optimizeGo p fuel true rest
      | none => sp ++ run ++ optimizeGo p fuel false rest
    else if isSepChar c then
      sepSpace prev cs ++ optimizeGo p fuel prev cs
    else
      c :: optimizeGo p fuel prev cs

/-- `PathOptimizerPlugin::optimize_path_data`, output string only (the
`total_chars_saved` side effect is `charsSavedUpdate` below). -/
def optimizePathData (p : ℕ) (s : String) : String :=
  ⟨optimizeGo p s.toList.length false s.toList⟩

/-- The mutable fields of `PathOptimizerPlugin`. -/
structure PathState where
  decimalPlaces : ℕ
  pathCount : ℕ
  totalCharsSaved : ℕ
deriving DecidableEq

/-- `self.total_chars_saved += path_data.len() - optimized.len()`
(src/plugins/path.rs line 84).  `len()` is the UTF-8 byte length and the
subtraction is on `usize`; in a debug build it panics
(`attempt to subtract with overflow`) when the optimized string is longer
than the original, modelled by `none`. -/
def charsSavedUpdate (saved : ℕ) (orig opt : String) : Option ℕ :=
  if opt.utf8ByteSize ≤ orig.utf8ByteSize then
    some (saved + (orig.utf8ByteSize - opt.utf8ByteSize))
  else none

/-- One call of `self.optimize_path_data(&data)`: the returned string
together with the statistics side effect on the plugin state. -/
def optimizeCall (st : PathState) (s : String) : Option (PathState × String) :=
  let out := optimizePathData st.decimalPlaces s
  (charsSavedUpdate st.totalCharsSaved s out).map
    fun saved => ({ st with totalCharsSaved := saved }, out)

/-- An XML element event payload (quick-xml `BytesStart`): tag name and the
ordered attribute list.  Attribute names and values are kept as strings;
per the data model, `String::from_utf8_lossy` decoding never fails. -/
structure Elem where
  tag : String
  attrs : List (String × String)
deriving DecidableEq

/-- One iteration of the attribute-collection loop of `process_element`
(src/plugins/path.rs lines 110–121): a `d` attribute is optimized and
remembered, any other attribute is appended to the kept list in order. -/
def attrStep (acc : Option (PathState × List (String × String) × Option String))
    (kv : String × String) : Option (PathState × List (String × String) × Option String) :=
  match acc with
  | none => none
  | some (st, keep, pd) =>
    if kv.1 = "d" then
      (optimizeCall st kv.2).map fun r => (r.1, keep, some r.2)
    else
      some (st, keep ++ [kv], pd)

/-- The whole attribute-collection loop of `process_element`. -/
def collectAttrs (st : PathState) (attrs : List (String × String)) :
    Option (PathState × List (String × String) × Option String) :=
  attrs.foldl attrStep (some (st, [], none))

/-- `PathOptimizerPlugin::process_element` (src/plugins/path.rs lines
101–137).  For a `path` element the counter is incremented, the attributes
are collected, and — when a `d` attribute was found — the attribute list
is rebuilt as the kept attributes followed by the optimized `d`.  `none`
models the debug-build panic of the chars-saved accumulation. -/
def processElement (st : PathState) (e : Elem) : Option (PathState × Elem) :=
  if e.tag = "path" then
    match collectAttrs { st with pathCount := st.pathCount + 1 } e.attrs with
    | none => none
    | some (st2, keep, some opt) => some (st2, { e with attrs := keep ++ [("d", opt)] })
    | some (st2, _, none) => some (st2, e)
  else some (st, e)

/-- `PathOptimizerPlugin::init` (src/plugins/path.rs lines 94–98): reset
both counters, keep the configured precision; always returns `Ok`. -/
def pathInit (st : PathState) : PathState :=
  { st with pathCount := 0, totalCharsSaved := 0 }

/-- A quick-xml markup event, as matched by `SVGProcessor::process_event`:
only `Start` and `Empty` carry an element offered to the plugins; every
other event kind passes through unchanged. -/
inductive XmlEvent where
  | startTag (e : Elem)
  | emptyTag (e : Elem)
  | endTag (tag : String)
  | text (s : String)
  | comment (s : String)
  | cdata (s : String)
  | decl (s : String)
  | pi (s : String)
  | docType (s : String)
deriving DecidableEq

/-- The `SVGPlugin` trait (src/plugins/traits.rs), over a plugin-chosen
state type `σ` and error type `ε`.  Each operation returns
`Option (Except ε _)`: `some (.ok _)` is `Ok`, `some (.error _)` is `Err`,
and `none` models a Rust panic (the call aborting the program instead of
returning a `Result`). -/
structure PluginOps (ε σ : Type) where
  initFn : σ → Option (Except ε σ)
  procElem : σ → Elem → Option (Except ε (σ × Elem))
  finalizeFn : σ → Option (Except ε σ)

/-- One registered plugin: its state type, operations, and current state
(`Box<dyn SVGPlugin>` in `SVGProcessor::plugins`). -/
structure PluginBox (ε : Type) where
  St : Type
  ops : PluginOps ε St
  state : St

/-- The failure modes of `process_file`, per the spec's error taxonomy:
a propagated unit error, or the `"No SVG content was processed"` error.
(Source `ParseError`s and sink `IOError`s are outside this model: the
event source is given as an already-parsed list and the sink never
fails.) -/
inductive RunError (ε : Type) where
  | unitError (e : ε)
  | emptyDocument
deriving DecidableEq

/-- Rust's `?` operator on a fallible call: a panic or an `Err` short
circuits, an `Ok` value is passed on. -/
def stepThen {ε : Type} {α : Type u} {β : Type v} (x : Option (Except ε α))
    (f : α → Option (Except ε β)) : Option (Except ε β) :=
  match x with
  | none => none
  | some (.error e) => some (.error e)
  | some (.ok a) => f a

@[simp] theorem stepThen_none {ε : Type} {α : Type u} {β : Type v} (f : α → Option (Except ε β)) :
    stepThen (none : Option (Except ε α)) f = none := rfl

@[simp] theorem stepThen_error {ε : Type} {α : Type u} {β : Type v} (e : ε)
    (f : α → Option (Except ε β)) :
    stepThen (some (.error e) : Option (Except ε α)) f = some (.error e) := rfl

@[simp] theorem stepThen_ok {ε : Type} {α : Type u} {β : Type v} (a : α)
    (f : α → Option (Except ε β)) :
    stepThen (some (.ok a) : Option (Except ε α)) f = f a := rfl

/-- `for plugin in &mut self.plugins { plugin.init()? }` — fail-fast
initialization in registration order. -/
def initPlugins {ε : Type} : List (PluginBox ε) → Option (Except ε (List (PluginBox ε)))
  | [] => some (.ok [])
  | b :: rest =>
    stepThen (b.ops.initFn b.state) fun s1 =>
      stepThen (initPlugins rest) fun rest1 =>
        some (.ok ({ b with state := s1 } :: rest1))

/-- `for plugin in &mut self.plugins { plugin.process_element(elem)? }` —
each plugin in registration order sees the previous plugin's mutation. -/
def runPluginsOnElem {ε : Type} :
    List (PluginBox ε) → Elem → Option (Except ε (List (PluginBox ε) × Elem))
  | [], e => some (.ok ([], e))
  | b :: rest, e =>
    stepThen (b.ops.procElem b.state e) fun r =>
      stepThen (runPluginsOnElem rest r.2) fun r2 =>
        some (.ok ({ b with state := r.1 } :: r2.1, r2.2))

/-- `SVGProcessor::process_event` (src/processor.rs lines 106–119):
`Start` and `Empty` elements go through every plugin; all other events are
returned unchanged. -/
def processEvent {ε : Type} (ps : List (PluginBox ε)) :
    XmlEvent → Option (Except ε (List (PluginBox ε) × XmlEvent))
  | .startTag e =>
    stepThen (runPluginsOnElem ps e) fun r => some (.ok (r.1, .startTag r.2))
  | .emptyTag e =>
    stepThen (runPluginsOnElem ps e) fun r => some (.ok (r.1, .emptyTag r.2))
  | ev => some (.ok (ps, ev))

/-- The streaming loop of `process_file` (src/processor.rs lines 65–76):
pull each event, run it through the plugins, write it to the sink, and
record that at least one event was processed.  On a plugin error the
events written so far are returned alongside: the `BufWriter` sink is
flushed (best effort) when it is dropped by the early return. -/
def streamEvents {ε : Type} :
    List (PluginBox ε) → List XmlEvent → List XmlEvent → Bool →
    Option (Except ε (List (PluginBox ε) × Bool) × List XmlEvent)
  | ps, [], out, processed => some (.ok (ps, processed), out)
  | ps, ev :: rest, out, _ =>
    match processEvent ps ev with
    | none => none
    | some (.error err) => some (.error err, out)
    | some (.ok (ps1, ev1)) => streamEvents ps1 rest (out ++ [ev1]) true

/-- `for plugin in &mut self.plugins { plugin.finalize()? }` — fail-fast
finalization in registration order. -/
def finalizePlugins {ε : Type} : List (PluginBox ε) → Option (Except ε (List (PluginBox ε)))
  | [] => some (.ok [])
  | b :: rest =>
    stepThen (b.ops.finalizeFn b.state) fun s1 =>
      stepThen (finalizePlugins rest) fun rest1 =>
        some (.ok ({ b with state := s1 } :: rest1))

/-- Rust's `?` operator inside `process_file` itself: a unit failure is
surfaced as a `UnitError` and the sink contents written so far (`out`)
are what the dropped writer flushes. -/
def stepRun {ε : Type} {α : Type 1} (x : Option (Except ε α)) (out : List XmlEvent)
    (f : α → Option (Except (RunError ε) (List (PluginBox ε)) × List XmlEvent)) :
    Option (Except (RunError ε) (List (PluginBox ε)) × List XmlEvent) :=
  match x with
  | none => none
  | some (.error e) => some (.error (.unitError e), out)
  | some (.ok a) => f a

@[simp] theorem stepRun_none {ε : Type} {α : Type 1} (out : List XmlEvent)
    (f : α → Option (Except (RunError ε) (List (PluginBox ε)) × List XmlEvent)) :
    stepRun (none : Option (Except ε α)) out f = none := rfl

@[simp] theorem stepRun_error {ε : Type} {α : Type 1} (e : ε) (out : List XmlEvent)
    (f : α → Option (Except (RunError ε) (List (PluginBox ε)) × List XmlEvent)) :
    stepRun (some (.error e) : Option (Except ε α)) out f =
      some (.error (.unitError e), out) := rfl

@[simp] theorem stepRun_ok {ε : Type} {α : Type 1} (a : α) (out : List XmlEvent)
    (f : α → Option (Except (RunError ε) (List (PluginBox ε)) × List XmlEvent)) :
    stepRun (some (.ok a) : Option (Except ε α)) out f = f a := rfl

/-- `SVGProcessor::process_file` (src/processor.rs lines 39–104) over an
already-parsed event list: initialize the plugins, stream the events,
finalize the plugins, flush, and report `EmptyDocumentError`
(`"No SVG content was processed"`) when no event was ever processed.
The second component of the result is the content of the underlying
output stream: on every early-return path it holds the events written
before the failure, because dropping the `BufWriter` flushes its buffer
(best effort); on the success and empty-document paths the explicit
`flush()` call precedes the emptiness check.  `none` models a panic. -/
def processFile {ε : Type} (ps : List (PluginBox ε)) (events : List XmlEvent) :
    Option (Except (RunError ε) (List (PluginBox ε)) × List XmlEvent) :=
  stepRun (initPlugins ps) [] fun ps1 =>
    match streamEvents ps1 events [] false with
    | none => none
    | some (.error e, out) => some (.error (.unitError e), out)
    | some (.ok (ps2, processed), out) =>
      stepRun (finalizePlugins ps2) out fun ps3 =>
        if processed then some (.ok ps3, out)
        else some (.error .emptyDocument, out)

/-- Observable outcome of a run: the success/failure status and the bytes
that reached the output stream (the plugin boxes themselves contain
functions and are projected away). -/
def runStatus {ε : Type} :
    Option (Except (RunError ε) (List (PluginBox ε)) × List XmlEvent) →
    Option (Except (RunError ε) Unit × List XmlEvent)
  | none => none
  | some (.ok _, out) => some (.ok (), out)
  | some (.error e, out) => some (.error e, out)

/-- The `SVGPlugin` implementation of `PathOptimizerPlugin`
(src/plugins/path.rs lines 93–146): `init` resets the counters and returns
`Ok`, `process_element` is `processElement` (whose only non-`Ok` outcome
is the debug-build panic `none`), `finalize` does nothing and returns
`Ok`.  No operation ever returns an `Err`. -/
def pathOps (ε : Type) : PluginOps ε PathState where
  initFn st := some (.ok (pathInit st))
  procElem st e := (processElement st e).map .ok
  finalizeFn st := some (.ok st)

/-- `PathOptimizerPlugin::new(dp)` registered as a plugin box. -/
def pathBox (ε : Type) (dp : ℕ) : PluginBox ε :=
  ⟨PathState, pathOps ε, ⟨dp, 0, 0⟩⟩

/-! ## Claim C1 -/

/-- C1: refuted.  The claim (and the unit test in src/plugins/path.rs)
says `"M 100.000 200.000"` at precision 2 yields `"M100 200"` with exactly
one space between adjacent numeric tokens.  The code emits two spaces: the
separator arm pushes a space when `prev_was_number` holds and the peeked
character is a digit, but does not clear `prev_was_number`, so the number
arm then pushes a second space.  (For numeric tokens adjacent with no
separator, such as `"100-50"`, the collection loop instead swallows both
into one unparseable token and copies it verbatim, with no space at
all.) -/
theorem optimize_example1_two_spaces :
    optimizePathData 2 "M 100.000 200.000" = "M100  200" ∧
    "M100  200" ≠ "M100 200" ∧
    optimizePathData 2 "100-50" = "100-50" := by
  decide

/-! ## Claim C2 -/

/-- C2: refuted.  Applying `optimize_path_data` twice at the same
precision is not the same as applying it once: on `"100x5"` the first pass
yields `"100x 5"` (the fallback arm for `'x'` leaves `prev_was_number`
set, so the following number is preceded by one space), and the second
pass yields `"100x  5"` (the separator arm now also fires on that space,
and the number arm adds yet another). -/
theorem optimize_not_idempotent :
    optimizePathData 2 (optimizePathData 2 "100x5") ≠ optimizePathData 2 "100x5" ∧
    optimizePathData 2 "100x5" = "100x 5" ∧
    optimizePathData 2 (optimizePathData 2 "100x5") = "100x  5" := by
  decide

/-! ## Claim C4 -/

/-- C4: refuted.  `total_chars_saved` has type `usize` and the
accumulation is `+= path_data.len() - optimized.len()`; when rounding
expands the representation the subtraction underflows — a panic in debug
builds (modelled by `none`), a wrap to a huge positive value in release
builds — rather than the negative contribution the claim describes.
Witnessed by the 3-byte input `"1e9"`, whose optimized form
`"1000000000"` is 10 bytes. -/
theorem chars_saved_underflow_panics :
    processElement ⟨2, 0, 0⟩ ⟨"path", [("d", "1e9")]⟩ = none ∧
    optimizeCall ⟨2, 0, 0⟩ "1e9" = none ∧
    optimizePathData 2 "1e9" = "1000000000" ∧
    ("1e9" : String).utf8ByteSize = 3 ∧
    ("1000000000" : String).utf8ByteSize = 10 := by
  decide

/-! ## Attribute-loop lemmas -/

theorem foldl_attrStep_none (attrs : List (String × String)) :
    attrs.foldl attrStep none = none := by
  induction attrs with
  | nil => rfl
  | cons kv rest ih => simpa [attrStep] using ih

theorem foldl_attrStep_no_d (attrs : List (String × String))
    (hnd : ∀ kv ∈ attrs, kv.1 ≠ "d") (st : PathState)
    (keep : List (String × String)) (pd : Option String) :
    attrs.foldl attrStep (some (st, keep, pd)) = some (st, keep ++ attrs, pd) := by
  induction attrs generalizing keep with
  | nil => simp
  | cons kv rest ih =>
    have h1 : ¬ (kv.1 = "d") := hnd kv (by simp)
    simp only [List.foldl_cons, attrStep, if_neg h1]
    rw [ih (fun x hx => hnd x (by simp [hx]))]
    simp

theorem optimizeCall_shape (st st' : PathState) (s out : String)
    (h : optimizeCall st s = some (st', out)) :
    st'.pathCount = st.pathCount ∧ st'.decimalPlaces = st.decimalPlaces ∧
    out = optimizePathData st.decimalPlaces s := by
  simp only [optimizeCall] at h
  cases hcs : charsSavedUpdate st.totalCharsSaved s (optimizePathData st.decimalPlaces s) with
  | none => rw [hcs] at h; simp at h
  | some saved =>
    rw [hcs] at h
    simp only [Option.map_some'] at h
    obtain ⟨h1, h2⟩ := Option.some.inj h |> Prod.mk.inj
    exact ⟨by rw [← h1], by rw [← h1], h2.symm⟩

theorem foldl_attrStep_counts (attrs : List (String × String)) :
    ∀ (st st2 : PathState) (keep keep2 : List (String × String))
      (pd pd2 : Option String),
      attrs.foldl attrStep (some (st, keep, pd)) = some (st2, keep2, pd2) →
      st2.pathCount = st.pathCount ∧ st2.decimalPlaces = st.decimalPlaces := by
  induction attrs with
  | nil =>
    intro st st2 keep keep2 pd pd2 h
    simp only [List.foldl_nil] at h
    obtain ⟨h1, -⟩ := Option.some.inj h |> Prod.mk.inj
    rw [← h1]
    exact ⟨rfl, rfl⟩
  | cons kv rest ih =>
    intro st st2 keep keep2 pd pd2 h
    simp only [List.foldl_cons] at h
    by_cases hd : kv.1 = "d"
    · rw [show attrStep (some (st, keep, pd)) kv =
          (optimizeCall st kv.2).map (fun r => (r.1, keep, some r.2)) by
            simp [attrStep, hd]] at h
      cases hoc : optimizeCall st kv.2 with
      | none => rw [hoc] at h; simp only [Option.map_none'] at h
                rw [foldl_attrStep_none] at h; exact absurd h (by simp)
      | some r =>
        rw [hoc] at h
        simp only [Option.map_some'] at h
        obtain ⟨hpc, hdp, -⟩ := optimizeCall_shape st r.1 kv.2 r.2 (by rw [hoc])
        obtain ⟨h1, h2⟩ := ih r.1 st2 keep keep2 (some r.2) pd2 h
        exact ⟨h1.trans hpc, h2.trans hdp⟩
    · rw [show attrStep (some (st, keep, pd)) kv = some (st, keep ++ [kv], pd) by
        simp [attrStep, hd]] at h
      exact ih st st2 (keep ++ [kv]) keep2 pd pd2 h

/-! ## Claim C3 -/

/-- C3: refuted as stated.  `path_count += 1` is executed at the top of
the `if element.name().as_ref() == b"path"` block, before the attribute
scan, so a `path` element with no `d` attribute still increments the
counter (here from 5 to 6), while the claim predicts it stays 5. -/
theorem pathCount_incremented_without_d :
    (processElement ⟨2, 5, 7⟩ ⟨"path", [("fill", "red")]⟩).map (fun r => r.1.pathCount)
        = some 6 ∧
    ¬ ((processElement ⟨2, 5, 7⟩ ⟨"path", [("fill", "red")]⟩).map (fun r => r.1.pathCount)
        = some 5) := by
  decide

/-- C3 amended: the per-unit `path_count` is incremented exactly when the
element's tag is `path`, whether or not a `d` attribute is present. -/
theorem pathCount_increment_iff_path_tag (st st' : PathState) (e e' : Elem)
    (h : processElement st e = some (st', e')) :
    st'.pathCount = st.pathCount + (if e.tag = "path" then 1 else 0) := by
  unfold processElement at h
  by_cases ht : e.tag = "path"
  · rw [if_pos ht] at h
    rw [ht]
    simp only [if_pos rfl]
    cases hc : collectAttrs { st with pathCount := st.pathCount + 1 } e.attrs with
    | none => rw [hc] at h; exact absurd h (by simp)
    | some acc =>
      obtain ⟨st2, keep, pd⟩ := acc
      have hcounts := foldl_attrStep_counts e.attrs _ st2 [] keep none pd hc
      rw [hc] at h
      cases pd with
      | none =>
        obtain ⟨h1, -⟩ := Option.some.inj h |> Prod.mk.inj
        rw [← h1, hcounts.1]
        simp
      | some opt =>
        obtain ⟨h1, -⟩ := Option.some.inj h |> Prod.mk.inj
        rw [← h1, hcounts.1]
        simp
  · rw [if_neg ht] at h
    rw [if_neg ht]
    obtain ⟨h1, -⟩ := Option.some.inj h |> Prod.mk.inj
    rw [← h1]
    simp

/-- Closed instance of `pathCount_increment_iff_path_tag`: a `path`
element carrying `d="1"` takes the counter from 0 to 1. -/
theorem pathCount_increment_iff_path_tag_witness :
    processElement ⟨2, 0, 0⟩ ⟨"path", [("d", "1")]⟩ = some (⟨2, 1, 0⟩, ⟨"path", [("d", "1")]⟩) ∧
    (⟨2, 1, 0⟩ : PathState).pathCount =
      (⟨2, 0, 0⟩ : PathState).pathCount +
        (if (⟨"path", [("d", "1")]⟩ : Elem).tag = "path" then 1 else 0) :=
  ⟨by decide, pathCount_increment_iff_path_tag ⟨2, 0, 0⟩ ⟨2, 1, 0⟩
    ⟨"path", [("d", "1")]⟩ ⟨"path", [("d", "1")]⟩ (by decide)⟩

/-! ## Claim C7 -/

/-- C7: confirmed.  For a `path` element whose attribute list is
`front ++ [d attribute] ++ back` with `d` occurring nowhere else, a
successful `process_element` rebuilds the attribute list as the non-`d`
attributes in their original relative order followed by the optimized `d`
last, regardless of where `d` stood originally. -/
theorem d_attribute_moved_last (st st' : PathState) (e e' : Elem)
    (front back : List (String × String)) (v : String)
    (htag : e.tag = "path")
    (hattrs : e.attrs = front ++ ("d", v) :: back)
    (hfront : ∀ kv ∈ front, kv.1 ≠ "d")
    (hback : ∀ kv ∈ back, kv.1 ≠ "d")
    (h : processElement st e = some (st', e')) :
    e'.attrs = front ++ back ++ [("d", optimizePathData st.decimalPlaces v)] ∧
    e'.tag = e.tag := by
  unfold processElement at h
  rw [if_pos htag] at h
  have hcoll : collectAttrs { st with pathCount := st.pathCount + 1 } e.attrs =
      (optimizeCall { st with pathCount := st.pathCount + 1 } v).map
        fun r => (r.1, front ++ back, some r.2) := by
    unfold collectAttrs
    rw [hattrs, List.foldl_append, foldl_attrStep_no_d front hfront _ [] none]
    simp only [List.nil_append, List.foldl_cons]
    rw [show attrStep (some ({ st with pathCount := st.pathCount + 1 }, front, none)) ("d", v) =
        (optimizeCall { st with pathCount := st.pathCount + 1 } v).map
          (fun r => (r.1, front, some r.2)) by simp [attrStep]]
    cases hoc : optimizeCall { st with pathCount := st.pathCount + 1 } v with
    | none => simp [foldl_attrStep_none]
    | some r => simp [foldl_attrStep_no_d back hback]
  rw [hcoll] at h
  cases hoc : optimizeCall { st with pathCount := st.pathCount + 1 } v with
  | none => rw [hoc] at h; exact absurd h (by simp)
  | some r =>
    obtain ⟨st2, out⟩ := r
    rw [hoc] at h
    simp only [Option.map_some'] at h
    obtain ⟨-, hdpl, hout⟩ := optimizeCall_shape _ st2 v out (by rw [hoc])
    obtain ⟨-, h2⟩ := Option.some.inj h |> Prod.mk.inj
    rw [← h2]
    refine ⟨?_, rfl⟩
    simp only [hout, hdpl]

/-- Closed instance of `d_attribute_moved_last`: `d` in the middle of the
attribute list moves to the end with its optimized value. -/
theorem d_attribute_moved_last_witness :
    processElement ⟨2, 0, 0⟩ ⟨"path", [("fill", "red"), ("d", "1"), ("id", "a")]⟩ =
      some (⟨2, 1, 0⟩, ⟨"path", [("fill", "red"), ("id", "a"), ("d", "1")]⟩) ∧
    (⟨"path", [("fill", "red"), ("id", "a"), ("d", "1")]⟩ : Elem).attrs =
      [("fill", "red")] ++ [("id", "a")] ++ [("d", optimizePathData 2 "1")] :=
  ⟨by decide, (d_attribute_moved_last ⟨2, 0, 0⟩ ⟨2, 1, 0⟩
      ⟨"path", [("fill", "red"), ("d", "1"), ("id", "a")]⟩
      ⟨"path", [("fill", "red"), ("id", "a"), ("d", "1")]⟩
      [("fill", "red")] [("id", "a")] "1" rfl rfl
      (by decide) (by decide) (by decide)).1⟩

/-! ## Claim C8 -/

/-- C8: confirmed.  An element whose tag is not `path`, and a `path`
element without a `d` attribute, comes out of `process_element` with the
element (tag and attribute list) unchanged. -/
theorem non_path_or_no_d_unchanged (st : PathState) (e : Elem)
    (h : e.tag ≠ "path" ∨ ∀ kv ∈ e.attrs, kv.1 ≠ "d") :
    (processElement st e).map (fun r => r.2) = some e := by
  by_cases ht : e.tag = "path"
  · rcases h with h | h
    · exact absurd ht h
    · unfold processElement collectAttrs
      rw [if_pos ht, foldl_attrStep_no_d e.attrs h _ [] none]
      rfl
  · unfold processElement
    rw [if_neg ht]
    rfl

/-- Closed instance of `non_path_or_no_d_unchanged`: a `rect` element is
passed through untouched even though it carries a `d` attribute. -/
theorem non_path_or_no_d_unchanged_witness :
    ((⟨"rect", [("d", "M0 0")]⟩ : Elem).tag ≠ "path" ∨
      ∀ kv ∈ (⟨"rect", [("d", "M0 0")]⟩ : Elem).attrs, kv.1 ≠ "d") ∧
    (processElement ⟨2, 0, 0⟩ ⟨"rect", [("d", "M0 0")]⟩).map (fun r => r.2) =
      some ⟨"rect", [("d", "M0 0")]⟩ :=
  ⟨Or.inl (by decide),
    non_path_or_no_d_unchanged ⟨2, 0, 0⟩ ⟨"rect", [("d", "M0 0")]⟩ (Or.inl (by decide))⟩

/-! ## Character-class lemmas for claim C9 -/

/-- Characters that can appear in the output of the numeric formatter. -/
def isNumOutChar (c : Char) : Bool :=
  c.isDigit || c = '-' || c = '.'

theorem isCommandChar_mem {c : Char} (h : isCommandChar c = true) :
    c ∈ ['M', 'm', 'L', 'l', 'H', 'h', 'V', 'v', 'C', 'c',
          'S', 's', 'Q', 'q', 'T', 't', 'A', 'a', 'Z', 'z'] := by
  simp only [isCommandChar, Bool.or_eq_true, decide_eq_true_eq] at h
  simp only [List.mem_cons, List.not_mem_nil, or_false]
  tauto

theorem command_not_numStart {c : Char} (h : isCommandChar c = true) :
    isNumStart c = false := by
  have hm := isCommandChar_mem h
  fin_cases hm <;> decide

theorem command_not_numCont {c : Char} (h : isCommandChar c = true) :
    isNumCont c = false := by
  have hm := isCommandChar_mem h
  fin_cases hm <;> decide

theorem command_not_numOut {c : Char} (h : isCommandChar c = true) :
    isNumOutChar c = false := by
  have hm := isCommandChar_mem h
  fin_cases hm <;> decide

theorem numStart_not_command {c : Char} (h : isNumStart c = true) :
    isCommandChar c = false := by
  cases hc : isCommandChar c with
  | false => rfl
  | true => rw [command_not_numStart hc] at h; exact absurd h (by simp)

theorem numCont_not_command {c : Char} (h : isNumCont c = true) :
    isCommandChar c = false := by
  cases hc : isCommandChar c with
  | false => rfl
  | true => rw [command_not_numCont hc] at h; exact absurd h (by simp)

theorem numOut_not_command {c : Char} (h : isNumOutChar c = true) :
    isCommandChar c = false := by
  cases hc : isCommandChar c with
  | false => rfl
  | true => rw [command_not_numOut hc] at h; exact absurd h (by simp)

theorem sep_not_command {c : Char} (h : isSepChar c = true) :
    isCommandChar c = false := by
  simp only [isSepChar, Bool.or_eq_true, decide_eq_true_eq] at h
  rcases h with h | h <;> subst h <;> decide

theorem natReprGo_chars (fuel : ℕ) : ∀ (n : ℕ) (acc : List Char),
    (∀ c ∈ acc, isNumOutChar c = true) →
    ∀ c ∈ natReprGo fuel n acc, isNumOutChar c = true := by
  induction fuel with
  | zero => intro n acc hacc; simpa [natReprGo] using hacc
  | succ fuel ih =>
    intro n acc hacc c hc
    rw [natReprGo] at hc
    by_cases hn : n = 0
    · rw [if_pos hn] at hc; exact hacc c hc
    · rw [if_neg hn] at hc
      refine ih (n / 10) _ ?_ c hc
      intro d hd
      rcases List.mem_cons.mp hd with hd | hd
      · subst hd
        have hlt : n % 10 < 10 := Nat.mod_lt _ (by norm_num)
        set k := n % 10 with hk
        interval_cases k <;> decide
      · exact hacc d hd

theorem natRepr_chars (n : ℕ) : ∀ c ∈ natRepr n, isNumOutChar c = true := by
  intro c hc
  unfold natRepr at hc
  by_cases hn : n = 0
  · rw [if_pos hn] at hc
    rcases List.mem_cons.mp hc with hc | hc
    · subst hc; decide
    · exact absurd hc (by simp)
  · rw [if_neg hn] at hc
    exact natReprGo_chars n n [] (by simp) c hc

theorem paddedDigits_chars (p : ℕ) (v : DecFloat) :
    ∀ c ∈ paddedDigits p v, isNumOutChar c = true := by
  intro c hc
  simp only [paddedDigits] at hc
  split at hc
  · rcases List.mem_append.mp hc with hc | hc
    · rw [List.eq_of_mem_replicate hc]; decide
    · exact natRepr_chars _ c hc
  · exact natRepr_chars _ c hc

theorem fixedFormat_chars (p : ℕ) (v : DecFloat) :
    ∀ c ∈ fixedFormat p v, isNumOutChar c = true := by
  intro c hc
  simp only [fixedFormat] at hc
  have hsign : ∀ c ∈ (if v.neg then ['-'] else ([] : List Char)), isNumOutChar c = true := by
    intro d hd
    split at hd
    · rcases List.mem_cons.mp hd with hd | hd
      · subst hd; decide
      · exact absurd hd (by simp)
    · exact absurd hd (by simp)
  split at hc
  · rcases List.mem_append.mp hc with hc | hc
    · exact hsign c hc
    · exact paddedDigits_chars p v c hc
  · rcases List.mem_append.mp hc with hc | hc
    · rcases List.mem_append.mp hc with hc | hc
      · exact hsign c hc
      · exact paddedDigits_chars p v c (List.take_subset _ _ hc)
    · rcases List.mem_cons.mp hc with hc | hc
      · subst hc; decide
      · exact paddedDigits_chars p v c (List.drop_subset _ _ hc)

theorem trimNumChars_subset {c : Char} {l : List Char} (h : c ∈ trimNumChars l) :
    c ∈ l := by
  unfold trimNumChars at h
  have h1 := List.mem_reverse.mp h
  have h2 : c ∈ l.reverse.dropWhile (fun c => c = '0') :=
    (List.dropWhile_sublist _).subset h1
  have h3 : c ∈ l.reverse := (List.dropWhile_sublist _).subset h2
  exact List.mem_reverse.mp h3

theorem formatNumber_chars (p : ℕ) (v : DecFloat) :
    ∀ c ∈ formatNumber p v, isNumOutChar c = true :=
  fun c hc => fixedFormat_chars p v c (trimNumChars_subset hc)

theorem filter_command_formatNumber (p : ℕ) (v : DecFloat) :
    (formatNumber p v).filter isCommandChar = [] := by
  rw [List.filter_eq_nil_iff]
  intro c hc
  rw [numOut_not_command (formatNumber_chars p v c hc)]
  simp

/-! ## Claim C9 -/

theorem optimizeGo_cons (p fuel : ℕ) (prev : Bool) (c : Char) (cs : List Char) :
    optimizeGo p (fuel + 1) prev (c :: cs) =
      if isCommandChar c then c :: optimizeGo p fuel false cs
      else if isNumStart c then
        let run := c :: cs.takeWhile isNumCont
        let rest := cs.dropWhile isNumCont
        let sp : List Char := if prev then [' '] else []
        match parseF64 run with
        | some q => sp ++ formatNumber p q ++ optimizeGo p fuel true rest
        | none => sp ++ run ++ optimizeGo p fuel false rest
      else if isSepChar c then
        sepSpace prev cs ++ optimizeGo p fuel prev cs
      else c :: optimizeGo p fuel prev cs := by
  rfl

theorem filter_command_run (c : Char) (cs : List Char) (hnum : isNumStart c = true) :
    (c :: cs.takeWhile isNumCont).filter isCommandChar = [] := by
  rw [List.filter_eq_nil_iff]
  intro d hd
  rcases List.mem_cons.mp hd with hd | hd
  · subst hd; rw [numStart_not_command hnum]; simp
  · rw [numCont_not_command (List.mem_takeWhile_imp hd)]; simp

theorem filter_command_sepSpace (prev : Bool) (cs : List Char) :
    (sepSpace prev cs).filter isCommandChar = [] := by
  cases prev with
  | false => rfl
  | true =>
    cases cs with
    | nil => rfl
    | cons n tail =>
      by_cases hn : (n.isDigit || n = '-') = true
      · show List.filter isCommandChar (if (n.isDigit || n = '-') = true then [' '] else []) = []
        rw [if_pos hn]
        decide
      · show List.filter isCommandChar (if (n.isDigit || n = '-') = true then [' '] else []) = []
        rw [if_neg hn]
        rfl

theorem optimizeGo_filter_commands (p : ℕ) : ∀ (fuel : ℕ) (prev : Bool) (l : List Char),
    l.length ≤ fuel →
    (optimizeGo p fuel prev l).filter isCommandChar = l.filter isCommandChar := by
  intro fuel
  induction fuel with
  | zero =>
    intro prev l h
    have hl : l = [] := List.eq_nil_of_length_eq_zero (Nat.le_zero.mp h)
    subst hl
    rfl
  | succ fuel ih =>
    intro prev l h
    cases l with
    | nil => rfl
    | cons c cs =>
      have hcs : cs.length ≤ fuel := by
        simpa [Nat.succ_le_succ_iff] using h
      have hrest : (cs.dropWhile isNumCont).length ≤ fuel :=
        le_trans (List.dropWhile_sublist _).length_le hcs
      by_cases hcmd : isCommandChar c = true
      · rw [optimizeGo_cons, if_pos hcmd]
        rw [List.filter_cons_of_pos (by simp [hcmd]), List.filter_cons_of_pos (by simp [hcmd]),
          ih false cs hcs]
      · by_cases hnum : isNumStart c = true
        · have hsplit : c :: cs =
              (c :: cs.takeWhile isNumCont) ++ cs.dropWhile isNumCont := by
            simp [List.takeWhile_append_dropWhile]
          have hrhs : (c :: cs).filter isCommandChar =
              (cs.dropWhile isNumCont).filter isCommandChar := by
            conv_lhs => rw [hsplit]
            rw [List.filter_append, filter_command_run c cs hnum]
            simp
          have hsp : ∀ b : Bool,
              (if b then [' '] else ([] : List Char)).filter isCommandChar = [] := by
            intro b; cases b <;> decide
          rw [optimizeGo_cons, if_neg hcmd, if_pos hnum]
          cases hparse : parseF64 (c :: cs.takeWhile isNumCont) with
          | some q =>
            simp only [hparse]
            rw [List.filter_append, List.filter_append, hsp prev,
              filter_command_formatNumber, ih true _ hrest, hrhs]
            simp
          | none =>
            simp only [hparse]
            rw [List.filter_append, List.filter_append, hsp prev,
              filter_command_run c cs hnum, ih false _ hrest, hrhs]
            simp
        · by_cases hsep : isSepChar c = true
          · rw [optimizeGo_cons, if_neg hcmd, if_neg hnum, if_pos hsep]
            rw [List.filter_append, filter_command_sepSpace, ih prev cs hcs,
              List.filter_cons_of_neg (by simp [sep_not_command hsep])]
            simp
          · rw [optimizeGo_cons, if_neg hcmd, if_neg hnum, if_neg hsep]
            rw [List.filter_cons_of_neg (by simp [hcmd]),
              List.filter_cons_of_neg (by simp [hcmd]), ih prev cs hcs]

/-- C9: confirmed.  For every input string and precision, the subsequence
of path command letters in the output of `optimize_path_data` is, letter
for letter and case included, the subsequence of command letters of the
input: commands are emitted verbatim, canonical numbers consist of digits
and `-`/`.`, invalid runs are copied verbatim and contain no command
letters, separators emit at most spaces, and other characters are copied
unchanged. -/
theorem command_letters_preserved (p : ℕ) (s : String) :
    (optimizePathData p s).toList.filter isCommandChar = s.toList.filter isCommandChar := by
  have h := optimizeGo_filter_commands p s.toList.length false s.toList le_rfl
  simpa [optimizePathData] using h

/-! ## Claim C5 -/

/-- C5: refuted as stated.  The `processed` flag of `process_file` is set
by *every* event, not only by elements, so a syntactically well-formed
document containing zero elements but some other markup event — here a
lone comment — completes successfully instead of failing with
`EmptyDocumentError`. -/
theorem comment_only_run_succeeds :
    runStatus (processFile [pathBox String 2] [.comment "generator"]) =
      some (.ok (), [.comment "generator"]) := rfl

/-- C5 amended: the run reports `EmptyDocumentError`
(`"No SVG content was processed"`) when the source yields no events at
all (for example an empty file), provided every unit's `init` and
`finalize` succeed — finalization runs before the emptiness check. -/
theorem zero_events_empty_document {ε : Type} (ps ps1 ps2 : List (PluginBox ε))
    (h1 : initPlugins ps = some (.ok ps1))
    (h2 : finalizePlugins ps1 = some (.ok ps2)) :
    processFile ps [] = some (.error .emptyDocument, []) := by
  simp only [processFile, h1, stepRun_ok, streamEvents, h2]
  rfl

/-- Closed instance of `zero_events_empty_document` for the path
optimizer alone on an empty stream. -/
theorem zero_events_empty_document_witness :
    initPlugins [pathBox String 2] = some (.ok [pathBox String 2]) ∧
    finalizePlugins [pathBox String 2] = some (.ok [pathBox String 2]) ∧
    processFile [pathBox String 2] [] = some (.error .emptyDocument, []) :=
  ⟨rfl, rfl, zero_events_empty_document [pathBox String 2] [pathBox String 2]
    [pathBox String 2] rfl rfl⟩

/-! ## Claim C6 -/

theorem finalizePlugins_first_error {ε : Type} (pre : List (PluginBox ε)) :
    ∀ (pre1 : List (PluginBox ε)) (b : PluginBox ε) (post : List (PluginBox ε)) (err : ε),
      finalizePlugins pre = some (.ok pre1) →
      b.ops.finalizeFn b.state = some (.error err) →
      finalizePlugins (pre ++ b :: post) = some (.error err) := by
  induction pre with
  | nil =>
    intro pre1 b post err h1 h2
    simp only [List.nil_append, finalizePlugins, h2, stepThen_error]
  | cons q rest ih =>
    intro pre1 b post err h1 h2
    simp only [finalizePlugins, List.cons_append] at h1 ⊢
    cases hq : q.ops.finalizeFn q.state with
    | none => simp [hq] at h1
    | some r =>
      cases r with
      | error e => simp [hq] at h1
      | ok s1 =>
        simp only [hq, stepThen_ok] at h1 ⊢
        cases hrest : finalizePlugins rest with
        | none => simp [hrest] at h1
        | some rr =>
          cases rr with
          | error e => simp [hrest] at h1
          | ok rest1 =>
            simp only [List.append_eq]
            rw [ih rest1 b post err hrest h2, stepThen_error]

/-- C6: confirmed.  If streaming completes and unit `b` is the first
whose `finalize` returns an error (the units `pre` before it finalize
successfully), the run aborts with exactly that unit's error wrapped as a
`UnitError`; the outcome does not depend on the units `post` after `b`
(they are universally quantified, so no later `finalize` is consulted);
and the events written during streaming are still delivered to the output
stream — the buffered writer is flushed, best effort, when the early
return drops it. -/
theorem finalize_error_aborts_still_flushes {ε : Type}
    (ps ps1 pre pre1 post : List (PluginBox ε)) (b : PluginBox ε)
    (events out : List XmlEvent) (processed : Bool) (err : ε)
    (h1 : initPlugins ps = some (.ok ps1))
    (h2 : streamEvents ps1 events [] false = some (.ok (pre ++ b :: post, processed), out))
    (h3 : finalizePlugins pre = some (.ok pre1))
    (h4 : b.ops.finalizeFn b.state = some (.error err)) :
    processFile ps events = some (.error (.unitError err), out) := by
  simp only [processFile, h1, stepRun_ok, h2,
    finalizePlugins_first_error pre pre1 b post err h3 h4, stepRun_error]

/-- A stub unit whose `finalize` fails, as the capability contract
permits; used to witness `finalize_error_aborts_still_flushes`. -/
def failBox : PluginBox String :=
  ⟨Unit,
    ⟨fun s => some (.ok s), fun s e => some (.ok (s, e)),
      fun _ => some (.error "finalize failed")⟩, ()⟩

/-- Closed instance of `finalize_error_aborts_still_flushes`: one unit
with a failing `finalize`, one text event; the run aborts with the unit's
error and the text event is still in the flushed output. -/
theorem finalize_error_aborts_still_flushes_witness :
    initPlugins [failBox] = some (.ok [failBox]) ∧
    streamEvents [failBox] [.text "hello"] [] false =
      some (.ok ([] ++ failBox :: [], true), [.text "hello"]) ∧
    finalizePlugins ([] : List (PluginBox String)) = some (.ok []) ∧
    failBox.ops.finalizeFn failBox.state = some (.error "finalize failed") ∧
    processFile [failBox] [.text "hello"] =
      some (.error (.unitError "finalize failed"), [.text "hello"]) :=
  ⟨rfl, rfl, rfl, rfl,
    finalize_error_aborts_still_flushes [failBox] [failBox] [] [] [] failBox
      [.text "hello"] [.text "hello"] true "finalize failed" rfl rfl rfl rfl⟩

/-! ## Claim C10 -/

/-- A plugin interface none of whose operations ever returns `Err`, at
any state.  `PathOptimizerPlugin` satisfies it. -/
def OpsNeverErr {ε σ : Type} (ops : PluginOps ε σ) : Prop :=
  (∀ s e, ops.initFn s ≠ some (.error e)) ∧
  (∀ s el e, ops.procElem s el ≠ some (.error e)) ∧
  (∀ s e, ops.finalizeFn s ≠ some (.error e))

theorem stepThen_no_error {ε : Type} {α β : Type 1}
    (x : Option (Except ε α)) (f : α → Option (Except ε β))
    (hx : ∀ e, x ≠ some (.error e))
    (hf : ∀ a, f a = none ∨ ∃ b, f a = some (.ok b)) :
    stepThen x f = none ∨ ∃ b, stepThen x f = some (.ok b) := by
  cases x with
  | none => exact Or.inl rfl
  | some r =>
    cases r with
    | error e => exact absurd rfl (hx e)
    | ok a => simpa [stepThen] using hf a

theorem initPlugins_cases {ε : Type} (ps : List (PluginBox ε))
    (h : ∀ b ∈ ps, OpsNeverErr b.ops) :
    initPlugins ps = none ∨
      ∃ ps1, initPlugins ps = some (.ok ps1) ∧ ∀ b ∈ ps1, OpsNeverErr b.ops := by
  induction ps with
  | nil => exact Or.inr ⟨[], rfl, by simp⟩
  | cons b rest ih =>
    have hb : OpsNeverErr b.ops := h b (by simp)
    have hrest := ih (fun q hq => h q (by simp [hq]))
    cases hbi : b.ops.initFn b.state with
    | none => exact Or.inl (by simp [initPlugins, hbi])
    | some r =>
      cases r with
      | error e => exact absurd hbi (hb.1 b.state e)
      | ok s1 =>
        rcases hrest with hrest | ⟨rest1, hr, hrest1⟩
        · exact Or.inl (by simp [initPlugins, hbi, hrest])
        · refine Or.inr ⟨{ b with state := s1 } :: rest1, by simp [initPlugins, hbi, hr], ?_⟩
          intro q hq
          rcases List.mem_cons.mp hq with hq | hq
          · subst hq; exact hb
          · exact hrest1 q hq

theorem finalizePlugins_cases {ε : Type} (ps : List (PluginBox ε))
    (h : ∀ b ∈ ps, OpsNeverErr b.ops) :
    finalizePlugins ps = none ∨ ∃ ps1, finalizePlugins ps = some (.ok ps1) := by
  induction ps with
  | nil => exact Or.inr ⟨[], rfl⟩
  | cons b rest ih =>
    have hb : OpsNeverErr b.ops := h b (by simp)
    have hrest := ih (fun q hq => h q (by simp [hq]))
    cases hbf : b.ops.finalizeFn b.state with
    | none => exact Or.inl (by simp [finalizePlugins, hbf])
    | some r =>
      cases r with
      | error e => exact absurd hbf (hb.2.2 b.state e)
      | ok s1 =>
        rcases hrest with hrest | ⟨rest1, hr⟩
        · exact Or.inl (by simp [finalizePlugins, hbf, hrest])
        · exact Or.inr ⟨{ b with state := s1 } :: rest1, by simp [finalizePlugins, hbf, hr]⟩

theorem runPluginsOnElem_cases {ε : Type} (ps : List (PluginBox ε)) :
    ∀ (el : Elem), (∀ b ∈ ps, OpsNeverErr b.ops) →
    runPluginsOnElem ps el = none ∨
      ∃ ps1 el1, runPluginsOnElem ps el = some (.ok (ps1, el1)) ∧
        ∀ b ∈ ps1, OpsNeverErr b.ops := by
  induction ps with
  | nil => intro el h; exact Or.inr ⟨[], el, rfl, by simp⟩
  | cons b rest ih =>
    intro el h
    have hb : OpsNeverErr b.ops := h b (by simp)
    cases hbp : b.ops.procElem b.state el with
    | none => exact Or.inl (by simp [runPluginsOnElem, hbp])
    | some r =>
      cases r with
      | error e => exact absurd hbp (hb.2.1 b.state el e)
      | ok r1 =>
        rcases ih r1.2 (fun q hq => h q (by simp [hq])) with hrest | ⟨ps1, el1, hr, hps1⟩
        · exact Or.inl (by simp [runPluginsOnElem, hbp, hrest])
        · refine Or.inr ⟨{ b with state := r1.1 } :: ps1, el1,
            by simp [runPluginsOnElem, hbp, hr], ?_⟩
          intro q hq
          rcases List.mem_cons.mp hq with hq | hq
          · subst hq; exact hb
          · exact hps1 q hq

theorem processEvent_cases {ε : Type} (ps : List (PluginBox ε)) (ev : XmlEvent)
    (h : ∀ b ∈ ps, OpsNeverErr b.ops) :
    processEvent ps ev = none ∨
      ∃ ps1 ev1, processEvent ps ev = some (.ok (ps1, ev1)) ∧
        ∀ b ∈ ps1, OpsNeverErr b.ops := by
  cases ev with
  | startTag e =>
    rcases runPluginsOnElem_cases ps e h with hr | ⟨ps1, el1, hr, hps1⟩
    · exact Or.inl (by simp [processEvent, hr])
    · exact Or.inr ⟨ps1, .startTag el1, by simp [processEvent, hr], hps1⟩
  | emptyTag e =>
    rcases runPluginsOnElem_cases ps e h with hr | ⟨ps1, el1, hr, hps1⟩
    · exact Or.inl (by simp [processEvent, hr])
    · exact Or.inr ⟨ps1, .emptyTag el1, by simp [processEvent, hr], hps1⟩
  | endTag t => exact Or.inr ⟨ps, .endTag t, rfl, h⟩
  | text s => exact Or.inr ⟨ps, .text s, rfl, h⟩
  | comment s => exact Or.inr ⟨ps, .comment s, rfl, h⟩
  | cdata s => exact Or.inr ⟨ps, .cdata s, rfl, h⟩
  | decl s => exact Or.inr ⟨ps, .decl s, rfl, h⟩
  | pi s => exact Or.inr ⟨ps, .pi s, rfl, h⟩
  | docType s => exact Or.inr ⟨ps, .docType s, rfl, h⟩

theorem streamEvents_cases {ε : Type} (events : List XmlEvent) :
    ∀ (ps : List (PluginBox ε)) (out : List XmlEvent) (processed : Bool),
      (∀ b ∈ ps, OpsNeverErr b.ops) →
      streamEvents ps events out processed = none ∨
        ∃ ps2 pr2 out2, streamEvents ps events out processed = some (.ok (ps2, pr2), out2) ∧
          ∀ b ∈ ps2, OpsNeverErr b.ops := by
  induction events with
  | nil => intro ps out processed h; exact Or.inr ⟨ps, processed, out, rfl, h⟩
  | cons ev rest ih =>
    intro ps out processed h
    rcases processEvent_cases ps ev h with hev | ⟨ps1, ev1, hev, hps1⟩
    · exact Or.inl (by simp [streamEvents, hev])
    · rcases ih ps1 (out ++ [ev1]) true hps1 with hr | ⟨ps2, pr2, out2, hr, hps2⟩
      · exact Or.inl (by simp [streamEvents, hev, hr])
      · exact Or.inr ⟨ps2, pr2, out2, by simp [streamEvents, hev, hr], hps2⟩

/-- For units none of whose operations can return an `Err`, the only
failure `process_file` can report is `EmptyDocumentError`: no `UnitError`
is possible. -/
theorem processFile_no_unit_error {ε : Type} (ps : List (PluginBox ε))
    (events : List XmlEvent) (h : ∀ b ∈ ps, OpsNeverErr b.ops)
    (err : RunError ε) (out : List XmlEvent)
    (hrun : processFile ps events = some (.error err, out)) :
    err = .emptyDocument := by
  rcases initPlugins_cases ps h with hi | ⟨ps1, hi, hps1⟩
  · simp only [processFile, hi, stepRun_none] at hrun
    exact absurd hrun (by simp)
  · simp only [processFile, hi, stepRun_ok] at hrun
    rcases streamEvents_cases events ps1 [] false hps1 with hs | ⟨ps2, pr2, out2, hs, hps2⟩
    · rw [hs] at hrun; simp at hrun
    · rw [hs] at hrun
      rcases finalizePlugins_cases ps2 hps2 with hf | ⟨ps3, hf⟩
      · simp only [hf, stepRun_none] at hrun
        simp at hrun
      · simp only [hf, stepRun_ok] at hrun
        cases pr2 with
        | true => simp at hrun
        | false =>
          simp only [Bool.false_eq_true, if_false] at hrun
          obtain ⟨h1, -⟩ := Option.some.inj hrun |> Prod.mk.inj
          exact (Except.error.inj h1).symm

/-- C10: the last clause is refuted.  With the path optimizer as only
registered unit and a source and sink that never fail, a run can still
fail: an empty event stream is reported as `EmptyDocumentError`, which
originates in the Pipeline Coordinator, not in the Event Source or the
Event Sink. -/
theorem empty_stream_fails_coordinator :
    runStatus (processFile [pathBox String 2] []) =
      some (.error .emptyDocument, []) := rfl

/-- C10 amended: `PathOptimizerPlugin`'s `init`, `process_element` and
`finalize` never return an error value, and consequently a run whose only
registered unit is the path optimizer never fails with a `UnitError`;
besides source and sink failures (outside this model) it can still fail
with the coordinator's `EmptyDocumentError` — and, in a debug build,
abort by the chars-saved underflow panic (`none`). -/
theorem path_plugin_never_unit_error (dp : ℕ) :
    (OpsNeverErr (pathOps String)) ∧
    (∀ (events : List XmlEvent) (err : RunError String) (out : List XmlEvent),
      processFile [pathBox String dp] events = some (.error err, out) →
      err = .emptyDocument) := by
  have hops : OpsNeverErr (pathOps String) := by
    refine ⟨fun s e => by simp [pathOps], fun s el e => ?_, fun s e => by simp [pathOps]⟩
    cases hpe : processElement s el with
    | none => simp [pathOps, hpe]
    | some r => simp [pathOps, hpe]
  refine ⟨hops, fun events err out hrun => ?_⟩
  refine processFile_no_unit_error [pathBox String dp] events ?_ err out hrun
  intro b hb
  rcases List.mem_singleton.mp hb with rfl
  exact hops

/-- Closed instance of `path_plugin_never_unit_error`: on the empty
stream the failure is exactly `EmptyDocumentError`. -/
theorem path_plugin_never_unit_error_witness :
    processFile [pathBox String 2] [] = some (.error .emptyDocument, []) ∧
    (RunError.emptyDocument : RunError String) = .emptyDocument :=
  ⟨rfl, (path_plugin_never_unit_error 2).2 [] .emptyDocument [] rfl⟩

end SvgoRs
